import Mathlib

/-!
Shallow embedding of the document analysis engine of this repository
(src/utils/document_processor.py and src/utils/nlp_models.py) over
`List Char` strings, together with proofs of the specification claims.

Conventions of the embedding:
* Python strings are `List Char`; `str` converts a Lean string literal.
* Python regular-expression splits and searches are modelled by explicit
  character scans that follow the concrete patterns used in the source.
* Recursions that consume text use an explicit fuel argument equal to the
  input length, so that every definition reduces inside the kernel.
* `random.random()` is modelled by an explicit stream `rand : Nat → Rat`
  of draws in [0,1); machine floats are modelled by exact rationals.
* The fallible transformer calls (the summarization pipeline call and the
  zero-shot-classification call, wrapped in try/except in the source) are
  modelled by oracle parameters whose result type distinguishes a
  well-shaped result, a malformed result, and a raised exception.
-/

def str (s : String) : List Char := s.data

/-- ASCII whitespace, modelling the whitespace class of Python regexes
and of the Python strip methods on the ASCII range. -/
def isWS (c : Char) : Bool :=
  c = ' ' || c = '\t' || c = '\n' || c = '\r' || c = '\x0b' || c = '\x0c'

/-- Models Python str.lower on the ASCII range. -/
def lowerStr (s : List Char) : List Char := s.map Char.toLower

/-- Models Python str.strip(). -/
def strip (s : List Char) : List Char :=
  ((s.dropWhile isWS).reverse.dropWhile isWS).reverse

/-- Models Python str.lstrip(). -/
def lstrip (s : List Char) : List Char := s.dropWhile isWS

/-- `leadsWith p l` holds when the pattern `p` stands at the head of `l`. -/
def leadsWith : List Char → List Char → Bool
  | [], _ => true
  | _ :: _, [] => false
  | a :: as, b :: bs => a = b && leadsWith as bs

/-- Models the Python substring test `p in l`. -/
def hasSeg (p : List Char) : List Char → Bool
  | [] => p.isEmpty
  | c :: rest => leadsWith p (c :: rest) || hasSeg p rest

/-- `SegOf p l`: `p` is a literal contiguous substring of `l`. -/
def SegOf (p l : List Char) : Prop := ∃ u v, l = u ++ p ++ v

/-- Models `re.search`: some suffix of the text matches the pattern test
at its head. -/
def searchAny (p : List Char → Bool) : List Char → Bool
  | [] => p []
  | c :: rest => p (c :: rest) || searchAny p rest

/-- Models Python sep.join(pieces). -/
def joinSep (sep : List Char) : List (List Char) → List Char
  | [] => []
  | [x] => x
  | x :: y :: rest => x ++ sep ++ joinSep sep (y :: rest)

/-- Models Python enumerate(l, i). -/
def withIdx {α : Type} : ℕ → List α → List (ℕ × α)
  | _, [] => []
  | i, a :: as => (i, a) :: withIdx (i + 1) as

def ell : List Char := str "..."

/-- Models `re.split(r'\n\s*\n', text)` from the source: a separator is a
newline followed by a whitespace run that contains a further newline; the
greedy `\s*` extends to just before the last newline of that run.  The
fuel argument (instantiated with the text length) only forces structural
recursion; each step consumes at least one character. -/
def splitParasAux : ℕ → List Char → List Char → List (List Char)
  | _, [], acc => [acc.reverse]
  | 0, l, acc => [acc.reverse ++ l]
  | fuel + 1, c :: rest, acc =>
      if c = '\n' then
        let w := rest.takeWhile isWS
        if '\n' ∈ w then
          let m := w.length - (w.reverse.takeWhile (fun d => d ≠ '\n')).length
          acc.reverse :: splitParasAux fuel (rest.drop m) []
        else splitParasAux fuel rest (c :: acc)
      else splitParasAux fuel rest (c :: acc)

def splitParas (text : List Char) : List (List Char) :=
  splitParasAux text.length text []

/-- The lookbehind test of `(?<=[.!?])\s+`: the next character is
whitespace and the previously consumed character (head of the reversed
accumulator) is `.`, `!` or `?`. -/
def sentBoundary (c : Char) (acc : List Char) : Bool :=
  isWS c && (match acc with
    | p :: _ => p = '.' || p = '!' || p = '?'
    | [] => false)

/-- Models `re.split(r'(?<=[.!?])\s+', text)` from the source: a separator
is a maximal whitespace run whose preceding character is `.`, `!` or `?`.
The reversed accumulator holds the consumed characters of the current
piece, so its head is the character behind the lookbehind. -/
def splitSentencesAux : ℕ → List Char → List Char → List (List Char)
  | _, [], acc => [acc.reverse]
  | 0, l, acc => [acc.reverse ++ l]
  | fuel + 1, c :: rest, acc =>
      if sentBoundary c acc then
        acc.reverse :: splitSentencesAux fuel (rest.dropWhile isWS) []
      else splitSentencesAux fuel rest (c :: acc)

def splitSentences (text : List Char) : List (List Char) :=
  splitSentencesAux text.length text []

/-! ### Bullet extraction (extract_bullet_points in document_processor.py) -/

/-- The indicator vocabulary of extract_bullet_points. -/
def indicators : List (List Char) :=
  [str "important", str "significant", str "key", str "main", str "primary",
   str "essential", str "crucial", str "critical", str "fundamental",
   str "therefore", str "thus", str "hence", str "accordingly", str "consequently",
   str "as a result", str "in conclusion", str "to summarize",
   str "must", str "should", str "shall", str "will", str "required",
   str "noteworthy", str "notably", str "particularly", str "especially", str "specifically",
   str "primarily", str "chiefly", str "mainly", str "predominantly", str "principally",
   str "significantly", str "markedly", str "substantially", str "considerably",
   str "undoubtedly", str "unquestionably", str "indisputably", str "indubitably",
   str "evidently", str "obviously", str "plainly", str "patently", str "manifestly",
   str "firstly", str "secondly", str "thirdly", str "finally", str "lastly",
   str "in summary", str "in brief", str "in short", str "overall"]

/-- The topic sentence vocabulary of extract_bullet_points. -/
def topic_sentence_indicators : List (List Char) :=
  [str "this", str "these", str "such", str "the", str "our", str "their", str "we", str "they",
   str "according", str "research", str "study", str "analysis", str "evidence", str "data",
   str "report", str "survey", str "investigation", str "findings", str "results"]

def containsAnyOf (ws : List (List Char)) (s : List Char) : Bool :=
  ws.any (fun w => hasSeg w s)

/-- Models `re.match(r'^\s*\d+[\.\)]', sentence)`. -/
def numMarker (s : List Char) : Bool :=
  let t := s.dropWhile isWS
  let ds := t.takeWhile Char.isDigit
  (!ds.isEmpty) && (match t.drop ds.length with
    | c :: _ => c = '.' || c = ')'
    | [] => false)

/-- Models `re.match(r'^\s*[•\-\*]', sentence)`. -/
def glyphMarker (s : List Char) : Bool :=
  match s.dropWhile isWS with
  | c :: _ => c = '•' || c = '-' || c = '*'
  | [] => false

/-- Models `re.sub(r'^\s*[•\-\*\d+[\.\)]]\s*', '', sentence)`.  In that
pattern the character class is `[•\-\*\d+[\.\)]` and is followed by a
literal `]`, so the removed piece is: leading whitespace, one character
of the class, a right bracket, trailing whitespace.  When the pattern
does not match, re.sub returns the sentence unchanged. -/
def cleanMarker (s : List Char) : List Char :=
  match s.dropWhile isWS with
  | c :: d :: rest =>
      if (c = '•' || c = '-' || c = '*' || c.isDigit || c = '+' || c = '[' ||
          c = '.' || c = ')') && d = ']' then
        rest.dropWhile isWS
      else s
  | _ => s

/-- Match of `\d+(\.\d+)?%` at the head of the text. -/
def pctAt (s : List Char) : Bool :=
  let ds := s.takeWhile Char.isDigit
  (!ds.isEmpty) && (match s.drop ds.length with
    | '%' :: _ => true
    | '.' :: rest =>
        let ds2 := rest.takeWhile Char.isDigit
        (!ds2.isEmpty) && (match rest.drop ds2.length with
          | '%' :: _ => true
          | _ => false)
    | _ => false)

/-- Match of `\$\d+` at the head of the text. -/
def moneyAt : List Char → Bool
  | '$' :: c :: _ => c.isDigit
  | _ => false

/-- Match of `\d{4}` at the head of the text. -/
def fourDigitsAt : List Char → Bool
  | a :: b :: c :: d :: _ => a.isDigit && b.isDigit && c.isDigit && d.isDigit
  | _ => false

/-- Match of `\d+\s*(million|billion|trillion)` at the head of the text. -/
def largeAt (s : List Char) : Bool :=
  let ds := s.takeWhile Char.isDigit
  (!ds.isEmpty) &&
    (let t := (s.drop ds.length).dropWhile isWS
     leadsWith (str "million") t || leadsWith (str "billion") t ||
       leadsWith (str "trillion") t)

/-- Match of `\d+%|\d+\.\d+%` at the head of the text (the Statistic
category test of the bullet post-processing). -/
def statPctAt (s : List Char) : Bool :=
  let ds := s.takeWhile Char.isDigit
  (!ds.isEmpty) &&
    ((match s.drop ds.length with
      | '%' :: _ => true
      | _ => false) ||
     (match s.drop ds.length with
      | '.' :: rest =>
          let ds2 := rest.takeWhile Char.isDigit
          (!ds2.isEmpty) && (match rest.drop ds2.length with
            | '%' :: _ => true
            | _ => false)
      | _ => false))

/-- Phase 1 condition: an indicator occurs in the lower-cased sentence, or
the sentence starts with a numbered-list marker or a bullet glyph. -/
def sentenceCond1 (s : List Char) : Bool :=
  containsAnyOf indicators (lowerStr s) || numMarker s || glyphMarker s

/-- Phase 1 candidates in visit order: for every paragraph of trimmed
length at least 20, every sentence of trimmed length at least 15 that
passes the phase 1 condition, cleaned and trimmed, when nonempty. -/
def candidates1 (paras : List (List Char)) : List (List Char) :=
  (paras.filter (fun para => 20 ≤ (strip para).length)).flatMap (fun para =>
    ((splitSentences para).filter
        (fun s => 15 ≤ (strip s).length && sentenceCond1 s)).filterMap
      (fun s =>
        let clean := strip (cleanMarker s)
        if clean.isEmpty then none else some clean))

/-- Phase 2 candidates in visit order: for every paragraph of trimmed
length at least 20, the first sentence when longer than 15 characters,
then every later sentence of trimmed length at least 15 containing a
topic indicator. -/
def candidates2 (paras : List (List Char)) : List (List Char) :=
  (paras.filter (fun para => 20 ≤ (strip para).length)).flatMap (fun para =>
    let sentences := splitSentences para
    (if 15 < sentences.headI.length then [sentences.headI] else []) ++
      sentences.tail.filter (fun s =>
        15 ≤ (strip s).length &&
          containsAnyOf topic_sentence_indicators (lowerStr s)))

/-- Phase 3 condition: percentage, money amount, four-digit year, or a
large-number word. -/
def quantCond (s : List Char) : Bool :=
  searchAny pctAt s || searchAny moneyAt s || searchAny fourDigitsAt s ||
    searchAny largeAt (lowerStr s)

def candidates3 (paras : List (List Char)) : List (List Char) :=
  paras.flatMap (fun para => (splitSentences para).filter quantCond)

/-- Phase 4 candidates: sentences containing a question mark and longer
than 20 characters. -/
def candidates4 (paras : List (List Char)) : List (List Char) :=
  paras.flatMap (fun para =>
    (splitSentences para).filter (fun s => hasSeg (str "?") s && 20 < s.length))

/-- Append `s` unless it is already present: the `not in bullets` guard
used by all four extraction phases. -/
def addIfNew (bullets : List (List Char)) (s : List Char) : List (List Char) :=
  if s ∈ bullets then bullets else bullets ++ [s]

/-- The bullet accumulator after the four extraction phases.  Phase 2
only runs when phase 1 produced fewer than 15 bullets. -/
def bulletAccum (text : List Char) : List (List Char) :=
  let paras := splitParas text
  let b1 := (candidates1 paras).foldl addIfNew []
  let b2 := if b1.length < 15 then (candidates2 paras).foldl addIfNew b1 else b1
  let b3 := (candidates3 paras).foldl addIfNew b2
  (candidates4 paras).foldl addIfNew b3

def conclusionWords : List (List Char) :=
  [str "therefore", str "thus", str "hence", str "result", str "consequently"]

def exampleWords : List (List Char) :=
  [str "example", str "instance", str "illustrate", str "case"]

def importanceWords : List (List Char) :=
  [str "important", str "crucial", str "critical", str "essential"]

/-- The eight category markers of the bullet post-processing. -/
def tagStrings : List (List Char) :=
  [str "Conclusion: ", str "Example: ", str "Key Point: ", str "Statistic: ",
   str "Question: ", str "Introduction: ", str "Summary: ", str "Point: "]

/-- Category marker chosen for the bullet at index `i` out of `total`
accumulated bullets.  The positional comparisons with `total * 0.2` and
`total * 0.8` are modelled with exact rationals. -/
def chooseTag (total i : ℕ) (b : List Char) : List Char :=
  let bl := lowerStr b
  if containsAnyOf conclusionWords bl then str "Conclusion: "
  else if containsAnyOf exampleWords bl then str "Example: "
  else if containsAnyOf importanceWords bl then str "Key Point: "
  else if searchAny statPctAt b then str "Statistic: "
  else if hasSeg (str "?") b then str "Question: "
  else if (i : ℚ) < (total : ℚ) * (2 / 10) then str "Introduction: "
  else if (total : ℚ) * (8 / 10) < (i : ℚ) then str "Summary: "
  else str "Point: "

/-- The accumulated bullets, each paired with its category marker. -/
def enhancedPairs (text : List Char) : List (List Char × List Char) :=
  let bullets := bulletAccum text
  (withIdx 0 bullets).map (fun p => (chooseTag bullets.length p.1 p.2, p.2))

/-- extract_bullet_points from document_processor.py.  The language
argument is accepted and ignored, as in the source. -/
def extract_bullet_points (text : List Char) (language : List Char) : List (List Char) :=
  ((enhancedPairs text).map (fun q => q.1 ++ q.2)).take 20

/-! ### The mock classifier (_classify_text in nlp_models.py) -/

def categories : List (List Char) :=
  [str "Complaint", str "Request", str "Update/Notification", str "Appreciation"]

/-- The keyword table of the mock classifier. -/
def keyword_categories (cat : List Char) : List (List Char) :=
  if cat = str "Complaint" then
    [str "issue", str "problem", str "complaint", str "dissatisfied",
     str "disappointed", str "poor", str "bad", str "terrible"]
  else if cat = str "Request" then
    [str "please", str "request", str "kindly", str "could you",
     str "would you", str "need", str "want", str "asking"]
  else if cat = str "Update/Notification" then
    [str "update", str "notify", str "inform", str "announce",
     str "notice", str "advisory", str "bulletin", str "information"]
  else if cat = str "Appreciation" then
    [str "thank", str "appreciate", str "grateful", str "excellent",
     str "good", str "well done", str "pleased", str "happy"]
  else []

/-- Number of keyword-table terms of `cat` occurring in the lower-cased
text (each term counted once, as substring presence). -/
def kwCount (tl cat : List Char) : ℕ :=
  (keyword_categories cat).countP (fun k => hasSeg k tl)

/-- The seed score `1 + int(random.random() * 9)` for one draw `r`. -/
def seedScore (r : ℚ) : ℕ := 1 + (⌊r * 9⌋).toNat

/-- The score dictionary of the mock classifier, as an association list:
categories with at least one keyword occurrence carry their counts; when
no category matched, every candidate label gets a random seed score. -/
def scoresDict (candidate_labels : List (List Char)) (rand : ℕ → ℚ)
    (tl : List Char) : List (List Char × ℕ) :=
  let counted := categories.filterMap (fun c =>
    if kwCount tl c = 0 then none else some (c, kwCount tl c))
  if counted.isEmpty then
    (withIdx 0 candidate_labels).map (fun p => (p.2, seedScore (rand p.1)))
  else counted

def dictLookup (d : List (List Char × ℕ)) (k : List Char) : Option ℕ :=
  (d.find? (fun p => p.1 = k)).map Prod.snd

/-- `scores.get(label, 0)`: the sort key of the ranking. -/
def scoreGet0 (d : List (List Char × ℕ)) (l : List Char) : ℕ :=
  (dictLookup d l).getD 0

/-- `float(scores.get(label, 0.1))`: the value used for normalization. -/
def scoreGetQ (d : List (List Char × ℕ)) (l : List Char) : ℚ :=
  match dictLookup d l with
  | some n => (n : ℚ)
  | none => 1 / 10

/-- Stable insertion for the descending sort: `x` goes in front of the
first element whose key is not larger. -/
def insertDesc (key : List Char → ℕ) (x : List Char) : List (List Char) → List (List Char)
  | [] => [x]
  | y :: ys => if key x < key y then y :: insertDesc key x ys else x :: y :: ys

/-- Models `sorted(candidate_labels, key=..., reverse=True)`: a stable
descending sort, so equal keys keep the original order. -/
def sortDesc (key : List Char → ℕ) : List (List Char) → List (List Char)
  | [] => []
  | x :: xs => insertDesc key x (sortDesc key xs)

structure ClassifyResult where
  labels : List (List Char)
  scores : List ℚ
  sequence : List Char

/-- _classify_text of the mock transformer pipeline. -/
def classify_text (rand : ℕ → ℚ) (text : List Char)
    (candidate_labels : List (List Char)) : ClassifyResult :=
  let text_lower := lowerStr text
  let scores := scoresDict candidate_labels rand text_lower
  let ordered_labels := sortDesc (fun l => scoreGet0 scores l) candidate_labels
  let total := (ordered_labels.map (fun l => scoreGetQ scores l)).sum
  { labels := ordered_labels,
    scores := ordered_labels.map (fun l => scoreGetQ scores l / total),
    sequence := if 100 < text.length then text.take 100 ++ ell else text }

/-! ### Intent classification (classify_intent in document_processor.py) -/

def explanationMain (intent : List Char) : List Char :=
  if intent = str "Complaint" then
    str "The document contains expressions of dissatisfaction or descriptions of problems that need to be addressed."
  else if intent = str "Request" then
    str "The document is primarily asking for information, action, or consideration of a specific matter."
  else if intent = str "Update/Notification" then
    str "The document provides information, updates, or notifications about policies, procedures, or events."
  else
    str "The document expresses gratitude, acknowledgment, or positive feedback."

def explanationDetails (intent : List Char) : List (List Char) :=
  if intent = str "Complaint" then
    [str "The text includes language that indicates dissatisfaction, frustration, or concerns.",
     str "There may be descriptions of issues, problems, or negative experiences.",
     str "The author appears to be seeking resolution, correction, or acknowledgment of a problem.",
     str "The document likely uses words with negative connotations to describe a situation or experience.",
     str "There may be explicit requests for corrective action or compensation."]
  else if intent = str "Request" then
    [str "The text contains explicit requests for action, information, or assistance.",
     str "There is a clear expectation of a response or action from the recipient.",
     str "The language is typically polite and formal, using phrases like \x27kindly\x27, \x27please\x27, or \x27would you\x27.",
     str "The document specifies what is being requested and often includes timeframes or deadlines.",
     str "There may be references to previous communications or established processes."]
  else if intent = str "Update/Notification" then
    [str "The text focuses on delivering information rather than requesting action.",
     str "There are statements of fact, announcements, or updates on specific topics.",
     str "The document may include dates, times, locations, or other specific details about events or changes.",
     str "The language is generally neutral and informative, rather than persuasive or emotional.",
     str "There may be references to attachments, additional resources, or follow-up communications."]
  else
    [str "The text contains expressions of thanks, gratitude, or appreciation.",
     str "There are positive descriptions of actions, services, or assistance received.",
     str "The document may acknowledge specific individuals, teams, or organizations.",
     str "The language is warm, appreciative, and uses positive adjectives.",
     str "There may be mentions of the positive impact of the actions being acknowledged."]

def confidencePhrase (lvl : List Char) : List Char :=
  if lvl = str "high" then str "with high confidence"
  else if lvl = str "medium" then str "with moderate confidence"
  else str "with low confidence"

def confidenceExplanation (lvl : List Char) : List Char :=
  if lvl = str "high" then
    str "The confidence level is high, suggesting strong indicators of this intent in the text."
  else if lvl = str "medium" then
    str "The moderate confidence level indicates some clear indicators of this intent, though some aspects may be ambiguous."
  else
    str "The low confidence level suggests the intent classification is tentative, as the text may contain mixed signals or limited clear indicators."

/-- Confidence bucketing of the score. -/
def confidenceLevel (score : ℚ) : List Char :=
  if 8 / 10 < score then str "high"
  else if 6 / 10 < score then str "medium"
  else str "low"

/-- Decimal digit character (models str() digits in the score
formatting; only 0-9 arise). -/
def digitCharM (n : ℕ) : Char :=
  if n = 0 then '0' else if n = 1 then '1' else if n = 2 then '2'
  else if n = 3 then '3' else if n = 4 then '4' else if n = 5 then '5'
  else if n = 6 then '6' else if n = 7 then '7' else if n = 8 then '8'
  else if n = 9 then '9' else '*'

/-- Decimal digits of a natural number; the fuel argument only forces
structural recursion. -/
def digitsAux : ℕ → ℕ → List Char → List Char
  | 0, _, acc => acc
  | _ + 1, 0, acc => acc
  | fuel + 1, n + 1, acc =>
      digitsAux fuel ((n + 1) / 10) (digitCharM ((n + 1) % 10) :: acc)

def natToChars (n : ℕ) : List Char :=
  if n = 0 then [digitCharM 0] else digitsAux n n []

/-- Models the f-string interpolation of the score with two decimals
(`{score:.2f}`); the float rounding is approximated by rational
rounding. -/
def formatScore2 (q : ℚ) : List Char :=
  let n := (round (q * 100)).toNat
  natToChars (n / 100) ++ str "." ++
    [digitCharM (n / 10 % 10), digitCharM (n % 10)]

/-- The keyword table of classify_intent used for the explanation. -/
def intent_keywords (intent : List Char) : List (List Char) :=
  if intent = str "Complaint" then
    [str "issue", str "problem", str "concerned", str "dissatisfied",
     str "disappointed", str "fix", str "resolve", str "failing"]
  else if intent = str "Request" then
    [str "please", str "request", str "kindly", str "would you",
     str "could you", str "need", str "require", str "provide"]
  else if intent = str "Update/Notification" then
    [str "inform", str "announce", str "update", str "notification",
     str "advise", str "reminder", str "schedule", str "upcoming"]
  else
    [str "thank", str "appreciate", str "grateful", str "excellent",
     str "outstanding", str "wonderful", str "helpful", str "generous"]

/-- The keywords of the classified intent found in the lower-cased first
2000 characters of the full text, in table order. -/
def foundKeywords (intent text : List Char) : List (List Char) :=
  (intent_keywords intent).filter (fun w => hasSeg w (lowerStr (text.take 2000)))

/-- The appended keyword analysis line, with at most five keywords. -/
def keywordLine (found : List (List Char)) : List Char :=
  str "\nKeywords detected: " ++ joinSep (str ", ") (found.take 5)

/-- The explanation parts, joined by "".join in the source. -/
def explanationParts (intent : List Char) (score : ℚ) (text : List Char) :
    List (List Char) :=
  let lvl := confidenceLevel score
  [explanationMain intent ++ str " The document has been classified " ++
     confidencePhrase lvl ++ str " (" ++ formatScore2 score ++ str ").",
   str "\nDetailed analysis:"] ++
  (explanationDetails intent).map (fun d => str "\n• " ++ d) ++
  (if (foundKeywords intent text).isEmpty then []
   else [keywordLine (foundKeywords intent text)]) ++
  [str "\n" ++ confidenceExplanation lvl]

def explanationText (intent : List Char) (score : ℚ) (text : List Char) : List Char :=
  (explanationParts intent score text).foldr (· ++ ·) []

structure IntentResult where
  label : List Char
  score : ℚ
  explanation : List Char

/-- A classifier call: `none` models a raised exception or a result
without the expected dictionary shape (both fall back identically in the
source). -/
def ClassifierCall : Type := List Char → Option ClassifyResult

/-- classify_intent from document_processor.py, with the internal score
exposed.  The language argument selects the classifier in the source and
is otherwise unused. -/
def classify_intent_full (cls : ClassifierCall) (text : List Char)
    (language : List Char) : IntentResult :=
  let sample_text := text.take 1000
  let intentScore : List Char × ℚ :=
    match cls sample_text with
    | some result =>
        (if result.labels.isEmpty then categories.headI else result.labels.headI,
         if result.scores.isEmpty then (1 / 2 : ℚ) else result.scores.headI)
    | none => (categories.headI, 1 / 2)
  let intent := intentScore.1
  let score := intentScore.2
  { label := intent, score := score, explanation := explanationText intent score text }

/-- The pair actually returned by classify_intent in the source. -/
def classify_intent (cls : ClassifierCall) (text : List Char)
    (language : List Char) : List Char × List Char :=
  let r := classify_intent_full cls text language
  (r.label, r.explanation)

/-- The concrete classifier of the repository: the mock pipeline, which
ignores the language tag. -/
def mockClassifier (language : List Char) (rand : ℕ → ℚ) : ClassifierCall :=
  fun s => some (classify_text rand s categories)

def classify_intent_entry (language : List Char) (rand : ℕ → ℚ)
    (text : List Char) : List Char × List Char :=
  classify_intent (mockClassifier language rand) text language

/-! ### Summarization (get_summary in document_processor.py and
_generate_summary in nlp_models.py) -/

inductive SummRes where
  | ok (s : List Char)
  | malformed
  | failure
deriving DecidableEq

/-- A summarizer call on (text, max_length, min_length): `ok` carries the
extracted summary text, `malformed` models a result without the expected
shape, `failure` a raised exception. -/
def SummOracle : Type := List Char → ℕ → ℕ → SummRes

def summaryMaxLength (text : List Char) : ℕ := min 150 (text.length / 4)

def summaryMinLength (text : List Char) : ℕ := min 30 (summaryMaxLength text / 2)

/-- The per-paragraph summaries of the long-document path: one entry per
paragraph of trimmed length over 200, with the first 100 characters plus
ellipsis substituted on a malformed result or a failure. -/
def summariesOf (summarizer : SummOracle) (text : List Char) : List (List Char) :=
  let max_length := summaryMaxLength text
  let min_length := summaryMinLength text
  (splitParas text).filterMap (fun para =>
    if 200 < (strip para).length then
      some (match summarizer para (max_length / 2) (min_length / 2) with
        | SummRes.ok s => s
        | SummRes.malformed => para.take 100 ++ ell
        | SummRes.failure => para.take 100 ++ ell)
    else none)

/-- get_summary from document_processor.py over a summarizer oracle.  The
language argument selects the summarizer in the source and is otherwise
unused.  All exception handlers of the source appear as match arms, so
the function is total for every oracle. -/
def get_summary (summarizer : SummOracle) (text : List Char)
    (language : List Char) : List Char :=
  let max_length := summaryMaxLength text
  let min_length := summaryMinLength text
  if 1000 < text.length then
    let summaries := summariesOf summarizer text
    if 1 < summaries.length then
      let combined_summary := joinSep (str " ") summaries
      if 1000 < combined_summary.length then
        match summarizer combined_summary max_length min_length with
        | SummRes.ok s => s
        | SummRes.malformed => combined_summary.take 200 ++ ell
        | SummRes.failure => combined_summary
      else combined_summary
    else if summaries.length = 1 then summaries.headI
    else text.take max_length ++ ell
  else
    match summarizer text max_length min_length with
    | SummRes.ok s => s
    | SummRes.malformed => text.take 150 ++ ell
    | SummRes.failure => joinSep (str " ") ((splitSentences text).take 3) ++ ell

def transitions : List (List Char) :=
  [str "Additionally, ", str "Furthermore, ", str "Moreover, ",
   str "In addition, ", str "Also, "]

/-- The sentence selection of _generate_summary. -/
def pickSummarySentences (sentences : List (List Char)) : List (List Char) :=
  let n := sentences.length
  if 10 < n then
    [sentences.headI,
     if 1 < n then sentences.getD 1 [] else [],
     sentences.getD (n / 4) [],
     sentences.getD (n / 2) [],
     sentences.getD (3 * n / 4) [],
     if 2 < n then sentences.getD (n - 2) [] else [],
     if 1 < n then sentences.getD (n - 1) [] else []]
  else if 5 < n then
    [sentences.headI,
     if 1 < n then sentences.getD 1 [] else [],
     sentences.getD (n / 2) [],
     if 2 < n then sentences.getD (n - 2) [] else [],
     if 1 < n then sentences.getD (n - 1) [] else []]
  else sentences

/-- The minimum-length padding loop of _generate_summary: keep appending
unused sentences while the check keeps the summary under min_length,
stop at the first sentence that is not appended. -/
def padLoop (min_length : ℕ) (summary : List Char) :
    List Char → List (List Char) → List Char
  | additional, [] => additional
  | additional, s :: rest =>
      if (summary ++ [' '] ++ additional).length < min_length then
        padLoop min_length summary (additional ++ [' '] ++ s) rest
      else additional

/-- _generate_summary of the mock transformer pipeline. -/
def generate_summary (text : List Char) (max_length min_length : ℕ) : List Char :=
  let sentences := splitSentences text
  let summary_sentences := pickSummarySentences sentences
  let filtered_sentences := summary_sentences.filter (fun s => !(strip s).isEmpty)
  let summary :=
    if 2 < filtered_sentences.length then
      let middle := (filtered_sentences.drop 1).dropLast
      joinSep (str " ")
        (filtered_sentences.headI ::
          ((withIdx 0 middle).map (fun p =>
              transitions.getD (p.1 % transitions.length) [] ++ lstrip p.2) ++
            [str "Finally, " ++ lstrip (filtered_sentences.getLastD [])]))
    else joinSep (str " ") filtered_sentences
  let summary :=
    if summary.length < min_length && min_length < text.length then
      summary ++ padLoop min_length summary []
        (sentences.filter (fun s => !(filtered_sentences.contains s)))
    else summary
  if max_length < summary.length then summary.take max_length ++ ell else summary

/-- The concrete summarizer of the repository: the mock pipeline, which
always returns a well-shaped singleton result and ignores the language
tag. -/
def mockSummarizer (language : List Char) : SummOracle :=
  fun t max_length min_length => SummRes.ok (generate_summary t max_length min_length)

def get_summary_entry (language : List Char) (text : List Char) : List Char :=
  get_summary (mockSummarizer language) text language

/-- Declaration index of the four fixed categories. -/
def declIdx (cat : List Char) : ℕ :=
  if cat = str "Complaint" then 0
  else if cat = str "Request" then 1
  else if cat = str "Update/Notification" then 2
  else if cat = str "Appreciation" then 3
  else 4

/-- Ranking order of the classifier: strictly larger key first, ties in
declaration order. -/
def rankRel (key : List Char → ℕ) (a b : List Char) : Prop :=
  key b < key a ∨ (key a = key b ∧ declIdx a < declIdx b)

/-! ### Substring lemmas -/

theorem SegOf.refl (a : List Char) : SegOf a a := ⟨[], [], by simp⟩

theorem SegOf.trans {a b c : List Char} (h1 : SegOf a b) (h2 : SegOf b c) :
    SegOf a c := by
  obtain ⟨u1, v1, rfl⟩ := h1
  obtain ⟨u2, v2, rfl⟩ := h2
  exact ⟨u2 ++ u1, v1 ++ v2, by simp⟩

theorem segOf_drop (l : List Char) (n : ℕ) : SegOf (l.drop n) l :=
  ⟨l.take n, [], by simp⟩

theorem segOf_dropWhile (p : Char → Bool) (l : List Char) :
    SegOf (l.dropWhile p) l := by
  conv_rhs => rw [← List.takeWhile_append_dropWhile (p := p) (l := l)]
  exact ⟨l.takeWhile p, [], by simp⟩

theorem segOf_lstrip (s : List Char) : SegOf (lstrip s) s :=
  segOf_dropWhile isWS s

theorem segOf_strip (s : List Char) : SegOf (strip s) s := by
  refine SegOf.trans (b := s.dropWhile isWS) ?_ (segOf_dropWhile isWS s)
  have h := congrArg List.reverse
    (List.takeWhile_append_dropWhile (p := isWS) (l := (s.dropWhile isWS).reverse))
  simp only [List.reverse_append, List.reverse_reverse] at h
  exact ⟨[], ((s.dropWhile isWS).reverse.takeWhile isWS).reverse, h.symm⟩

theorem mem_of_segOf {c : Char} {p l : List Char} (h : SegOf p l) (hc : c ∈ p) :
    c ∈ l := by
  obtain ⟨u, v, rfl⟩ := h
  simp [hc]

theorem splitParasAux_seg (fuel : ℕ) :
    ∀ l acc p, p ∈ splitParasAux fuel l acc → SegOf p (acc.reverse ++ l) := by
  induction fuel with
  | zero =>
    intro l acc p hp
    cases l with
    | nil =>
      simp only [splitParasAux, List.mem_singleton] at hp
      exact ⟨[], [], by simp [hp]⟩
    | cons c rest =>
      simp only [splitParasAux, List.mem_singleton] at hp
      exact ⟨[], [], by simp [hp]⟩
  | succ n ih =>
    intro l acc p hp
    cases l with
    | nil =>
      simp only [splitParasAux, List.mem_singleton] at hp
      exact ⟨[], [], by simp [hp]⟩
    | cons c rest =>
      rw [splitParasAux] at hp
      by_cases hc : c = '\n'
      · subst hc
        simp only [if_true] at hp
        by_cases hw : '\n' ∈ rest.takeWhile isWS
        · simp only [hw, if_true, List.mem_cons] at hp
          rcases hp with hp | hp
          · exact ⟨[], '\n' :: rest, by simp [hp]⟩
          · have := ih _ _ _ hp
            simp only [List.reverse_nil, List.nil_append] at this
            refine SegOf.trans this (SegOf.trans (segOf_drop rest _) ?_)
            exact ⟨acc.reverse ++ ['\n'], [], by simp⟩
        · simp only [hw, if_false] at hp
          have := ih _ _ _ hp
          simpa using this
      · simp only [hc, if_false] at hp
        have := ih _ _ _ hp
        simpa using this

theorem splitParas_seg (text : List Char) :
    ∀ p ∈ splitParas text, SegOf p text := by
  intro p hp
  have := splitParasAux_seg text.length text [] p hp
  simpa using this

theorem splitSentencesAux_seg (fuel : ℕ) :
    ∀ l acc p, p ∈ splitSentencesAux fuel l acc → SegOf p (acc.reverse ++ l) := by
  induction fuel with
  | zero =>
    intro l acc p hp
    cases l with
    | nil =>
      simp only [splitSentencesAux, List.mem_singleton] at hp
      exact ⟨[], [], by simp [hp]⟩
    | cons c rest =>
      simp only [splitSentencesAux, List.mem_singleton] at hp
      exact ⟨[], [], by simp [hp]⟩
  | succ n ih =>
    intro l acc p hp
    cases l with
    | nil =>
      simp only [splitSentencesAux, List.mem_singleton] at hp
      exact ⟨[], [], by simp [hp]⟩
    | cons c rest =>
      rw [splitSentencesAux] at hp
      by_cases hsep : sentBoundary c acc = true
      · simp only [hsep, if_true, List.mem_cons] at hp
        rcases hp with hp | hp
        · exact ⟨[], c :: rest, by simp [hp]⟩
        · have := ih _ _ _ hp
          simp only [List.reverse_nil, List.nil_append] at this
          refine SegOf.trans this ?_
          refine SegOf.trans (segOf_dropWhile isWS rest) ?_
          exact ⟨acc.reverse ++ [c], [], by simp⟩
      · simp only [hsep, if_false] at hp
        have := ih _ _ _ hp
        simpa using this

theorem splitSentences_seg (text : List Char) :
    ∀ p ∈ splitSentences text, SegOf p text := by
  intro p hp
  have := splitSentencesAux_seg text.length text [] p hp
  simpa using this

theorem splitSentencesAux_ne_nil (fuel : ℕ) :
    ∀ l acc, splitSentencesAux fuel l acc ≠ [] := by
  induction fuel with
  | zero =>
    intro l acc
    cases l <;> simp [splitSentencesAux]
  | succ n ih =>
    intro l acc
    cases l with
    | nil => simp [splitSentencesAux]
    | cons c rest =>
      rw [splitSentencesAux]
      split
      · simp
      · exact ih _ _

theorem splitSentences_ne_nil (text : List Char) : splitSentences text ≠ [] :=
  splitSentencesAux_ne_nil text.length text []

theorem headI_mem_self {l : List (List Char)} (h : l ≠ []) : l.headI ∈ l := by
  cases l with
  | nil => exact absurd rfl h
  | cons a as => simp [List.headI]

theorem segOf_cleanMarker (s : List Char) : SegOf (cleanMarker s) s := by
  rcases h : s.dropWhile isWS with _ | ⟨c, t⟩
  · simp only [cleanMarker, h]
    exact SegOf.refl s
  · rcases t with _ | ⟨d, rest⟩
    · simp only [cleanMarker, h]
      exact SegOf.refl s
    · simp only [cleanMarker, h]
      split
      · refine SegOf.trans (b := c :: d :: rest) ?_ ?_
        · exact SegOf.trans (b := rest) (segOf_dropWhile isWS rest) ⟨[c, d], [], by simp⟩
        · rw [← h]
          exact segOf_dropWhile isWS s
      · exact SegOf.refl s

/-! ### Accumulator lemmas -/

theorem mem_addIfNew {b s : List Char} {acc : List (List Char)}
    (h : b ∈ addIfNew acc s) : b ∈ acc ∨ b = s := by
  rw [addIfNew] at h
  split at h
  · exact Or.inl h
  · rcases List.mem_append.mp h with h | h
    · exact Or.inl h
    · exact Or.inr (List.mem_singleton.mp h)

theorem mem_foldl_addIfNew {b : List Char} :
    ∀ (cs : List (List Char)) (acc : List (List Char)),
      b ∈ cs.foldl addIfNew acc → b ∈ acc ∨ b ∈ cs := by
  intro cs
  induction cs with
  | nil => intro acc h; exact Or.inl h
  | cons c rest ih =>
    intro acc h
    rcases ih (addIfNew acc c) h with h2 | h2
    · rcases mem_addIfNew h2 with h3 | h3
      · exact Or.inl h3
      · exact Or.inr (by simp [h3])
    · exact Or.inr (List.mem_cons_of_mem _ h2)

theorem nodup_addIfNew {s : List Char} {acc : List (List Char)}
    (h : acc.Nodup) : (addIfNew acc s).Nodup := by
  rw [addIfNew]
  split
  · exact h
  · rename_i hmem
    simp [List.nodup_append, h, hmem]

theorem nodup_foldl_addIfNew :
    ∀ (cs : List (List Char)) (acc : List (List Char)),
      acc.Nodup → (cs.foldl addIfNew acc).Nodup := by
  intro cs
  induction cs with
  | nil => intro acc h; exact h
  | cons c rest ih => intro acc h; exact ih _ (nodup_addIfNew h)

/-! ### Candidate lemmas -/

theorem mem_candidates1_seg {text b : List Char}
    (h : b ∈ candidates1 (splitParas text)) : SegOf b text := by
  rw [candidates1] at h
  rcases List.mem_flatMap.mp h with ⟨para, hpara, hb⟩
  have hpara2 : para ∈ splitParas text := (List.mem_filter.mp hpara).1
  rcases List.mem_filterMap.mp hb with ⟨s, hs, hsb⟩
  have hsent : s ∈ splitSentences para := (List.mem_filter.mp hs).1
  have hbs : b = strip (cleanMarker s) := by
    by_cases hcl : (strip (cleanMarker s)).isEmpty
    · simp [hcl] at hsb
    · simp [hcl] at hsb
      exact hsb.symm
  subst hbs
  refine SegOf.trans (SegOf.trans (segOf_strip _) (segOf_cleanMarker s)) ?_
  exact SegOf.trans (splitSentences_seg para s hsent) (splitParas_seg text para hpara2)

theorem mem_candidates2_seg {text b : List Char}
    (h : b ∈ candidates2 (splitParas text)) : SegOf b text := by
  rw [candidates2] at h
  rcases List.mem_flatMap.mp h with ⟨para, hpara, hb⟩
  have hpara2 : para ∈ splitParas text := (List.mem_filter.mp hpara).1
  have hseg : ∀ s ∈ splitSentences para, SegOf s text := fun s hs =>
    SegOf.trans (splitSentences_seg para s hs) (splitParas_seg text para hpara2)
  rcases List.mem_append.mp hb with h2 | h2
  · split at h2
    · have : b = (splitSentences para).headI := List.mem_singleton.mp h2
      subst this
      exact hseg _ (headI_mem_self (splitSentences_ne_nil para))
    · simp at h2
  · have : b ∈ (splitSentences para).tail := (List.mem_filter.mp h2).1
    exact hseg _ (List.mem_of_mem_tail this)

theorem mem_candidates3_seg {text b : List Char}
    (h : b ∈ candidates3 (splitParas text)) : SegOf b text := by
  rw [candidates3] at h
  rcases List.mem_flatMap.mp h with ⟨para, hpara, hb⟩
  have : b ∈ splitSentences para := (List.mem_filter.mp hb).1
  exact SegOf.trans (splitSentences_seg para b this) (splitParas_seg text para hpara)

theorem mem_candidates4_seg {text b : List Char}
    (h : b ∈ candidates4 (splitParas text)) : SegOf b text := by
  rw [candidates4] at h
  rcases List.mem_flatMap.mp h with ⟨para, hpara, hb⟩
  have : b ∈ splitSentences para := (List.mem_filter.mp hb).1
  exact SegOf.trans (splitSentences_seg para b this) (splitParas_seg text para hpara)

theorem mem_bulletAccum_seg {text b : List Char}
    (h : b ∈ bulletAccum text) : SegOf b text := by
  rw [bulletAccum] at h
  rcases mem_foldl_addIfNew _ _ h with h | h
  swap
  · exact mem_candidates4_seg h
  rcases mem_foldl_addIfNew _ _ h with h | h
  swap
  · exact mem_candidates3_seg h
  split at h
  · rcases mem_foldl_addIfNew _ _ h with h | h
    swap
    · exact mem_candidates2_seg h
    · rcases mem_foldl_addIfNew _ _ h with h | h
      · simp at h
      · exact mem_candidates1_seg h
  · rcases mem_foldl_addIfNew _ _ h with h | h
    · simp at h
    · exact mem_candidates1_seg h

theorem nodup_bulletAccum (text : List Char) : (bulletAccum text).Nodup := by
  rw [bulletAccum]
  refine nodup_foldl_addIfNew _ _ (nodup_foldl_addIfNew _ _ ?_)
  split
  · exact nodup_foldl_addIfNew _ _ (nodup_foldl_addIfNew _ _ List.nodup_nil)
  · exact nodup_foldl_addIfNew _ _ List.nodup_nil

theorem map_snd_withIdx {α : Type} : ∀ (i : ℕ) (l : List α),
    (withIdx i l).map Prod.snd = l := by
  intro i l
  induction l generalizing i with
  | nil => simp [withIdx]
  | cons a as ih => simp [withIdx, ih]

theorem chooseTag_mem (total i : ℕ) (b : List Char) :
    chooseTag total i b ∈ tagStrings := by
  rw [chooseTag]
  split_ifs <;> simp [tagStrings]

theorem map_snd_enhancedPairs (text : List Char) :
    (enhancedPairs text).map Prod.snd = bulletAccum text := by
  rw [enhancedPairs, List.map_map]
  simpa using map_snd_withIdx 0 (bulletAccum text)

/-- Claim C1: for every document text (and language tag),
extract_bullet_points returns at most 20 bullets, and every returned
bullet is one of the fixed category markers followed by a raw text that
is a literal contiguous substring of the original document text. -/
theorem claim_C1 (text language : List Char) :
    (extract_bullet_points text language).length ≤ 20 ∧
      ∀ b ∈ extract_bullet_points text language,
        ∃ tag raw, tag ∈ tagStrings ∧ b = tag ++ raw ∧ SegOf raw text := by
  constructor
  · rw [extract_bullet_points]
    rw [List.length_take]
    exact min_le_left _ _
  · intro b hb
    rw [extract_bullet_points] at hb
    have hb2 : b ∈ (enhancedPairs text).map (fun q => q.1 ++ q.2) :=
      (List.take_sublist _ _).subset hb
    rcases List.mem_map.mp hb2 with ⟨q, hq, rfl⟩
    refine ⟨q.1, q.2, ?_, rfl, ?_⟩
    · rw [enhancedPairs] at hq
      rcases List.mem_map.mp hq with ⟨p, hp, rfl⟩
      exact chooseTag_mem _ _ _
    · have h2 : q.2 ∈ (enhancedPairs text).map Prod.snd := List.mem_map_of_mem _ hq
      rw [map_snd_enhancedPairs] at h2
      exact mem_bulletAccum_seg h2

/-- Claim C2: the returned bullets are the marker-text pairs rendered in
order, and the underlying raw texts (the bullet texts after
category-marker stripping) are pairwise distinct. -/
theorem claim_C2 (text language : List Char) :
    extract_bullet_points text language =
      ((enhancedPairs text).take 20).map (fun q => q.1 ++ q.2) ∧
      (((enhancedPairs text).take 20).map Prod.snd).Nodup := by
  constructor
  · rw [extract_bullet_points, List.map_take]
  · rw [List.map_take, map_snd_enhancedPairs]
    exact (nodup_bulletAccum text).sublist (List.take_sublist _ _)

/-- Claim C5 (refuted: code bug): on a sentence that starts with the
bullet glyph `-` and carries the indicator word "important", the stored
bullet keeps its leading list marker, because the cleanup pattern
`^\s*[•\-\*\d+[\.\)]]\s*` demands a literal right bracket after the
marker character and therefore never matches an ordinary marker. -/
theorem claim_C5_bug :
    extract_bullet_points (str "- This is an important point.") (str "English") =
      [str "Key Point: - This is an important point."] := by decide

/-! ### Ranking lemmas -/

theorem mem_insertDesc {key : List Char → ℕ} {x z : List Char} :
    ∀ {xs : List (List Char)}, z ∈ insertDesc key x xs ↔ z = x ∨ z ∈ xs := by
  intro xs
  induction xs with
  | nil => simp [insertDesc]
  | cons y ys ih =>
    rw [insertDesc]
    split
    · simp only [List.mem_cons, ih]
      tauto
    · simp only [List.mem_cons]

theorem insertDesc_perm (key : List Char → ℕ) (x : List Char) :
    ∀ (xs : List (List Char)), (insertDesc key x xs).Perm (x :: xs) := by
  intro xs
  induction xs with
  | nil => simp [insertDesc]
  | cons y ys ih =>
    rw [insertDesc]
    split
    · exact (ih.cons y).trans (List.Perm.swap x y ys)
    · exact List.Perm.refl _

theorem sortDesc_perm (key : List Char → ℕ) :
    ∀ (l : List (List Char)), (sortDesc key l).Perm l := by
  intro l
  induction l with
  | nil => simp [sortDesc]
  | cons x xs ih =>
    rw [sortDesc]
    exact (insertDesc_perm key x (sortDesc key xs)).trans (ih.cons x)

theorem pairwise_insertDesc {key : List Char → ℕ} {x : List Char}
    {xs : List (List Char)} (hs : xs.Pairwise (rankRel key))
    (hx : ∀ y ∈ xs, declIdx x < declIdx y) :
    (insertDesc key x xs).Pairwise (rankRel key) := by
  induction xs with
  | nil => simp [insertDesc]
  | cons y ys ih =>
    rw [insertDesc]
    rw [List.pairwise_cons] at hs
    split
    · rename_i hlt
      rw [List.pairwise_cons]
      constructor
      · intro z hz
        rcases mem_insertDesc.mp hz with rfl | hz
        · exact Or.inl hlt
        · exact hs.1 z hz
      · exact ih hs.2 (fun z hz => hx z (List.mem_cons_of_mem _ hz))
    · rename_i hge
      push_neg at hge
      rw [List.pairwise_cons]
      constructor
      · intro z hz
        rcases List.mem_cons.mp hz with rfl | hz
        · rcases lt_or_eq_of_le hge with h | h
          · exact Or.inl h
          · exact Or.inr ⟨h.symm, hx z (List.mem_cons_self _ _)⟩
        · have hyz := hs.1 z hz
          rcases hyz with h | h
          · rcases lt_or_eq_of_le hge with h2 | h2
            · exact Or.inl (lt_trans h h2)
            · exact Or.inl (h2 ▸ h)
          · rcases lt_or_eq_of_le hge with h2 | h2
            · exact Or.inl (h.1 ▸ h2)
            · exact Or.inr ⟨h2.symm.trans h.1, hx z (List.mem_cons_of_mem _ hz)⟩
      · exact List.pairwise_cons.mpr hs

theorem pairwise_sortDesc {key : List Char → ℕ} :
    ∀ {l : List (List Char)}, l.Pairwise (fun a b => declIdx a < declIdx b) →
      (sortDesc key l).Pairwise (rankRel key) := by
  intro l
  induction l with
  | nil => simp [sortDesc]
  | cons x xs ih =>
    intro h
    rw [List.pairwise_cons] at h
    rw [sortDesc]
    refine pairwise_insertDesc (ih h.2) ?_
    intro y hy
    exact h.1 y ((sortDesc_perm key xs).mem_iff.mp hy)

/-! ### Classifier score lemmas -/

theorem seedScore_pos (r : ℚ) : 1 ≤ seedScore r := by
  rw [seedScore]
  omega

theorem seedScore_le (r : ℚ) (h0 : 0 ≤ r) (h1 : r < 1) : seedScore r ≤ 10 := by
  rw [seedScore]
  have h9 : r * 9 < 9 := by nlinarith
  have hf : (⌊r * 9⌋ : ℤ) < 9 := by
    have := Int.floor_le (r * 9)
    have h2 : (⌊r * 9⌋ : ℚ) < 9 := lt_of_le_of_lt this h9
    exact_mod_cast h2
  have : (⌊r * 9⌋).toNat ≤ 8 := by omega
  omega

theorem scoresDict_pos (labels : List (List Char)) (rand : ℕ → ℚ)
    (tl : List Char) : ∀ p ∈ scoresDict labels rand tl, 1 ≤ p.2 := by
  intro p hp
  rw [scoresDict] at hp
  split at hp
  · rcases List.mem_map.mp hp with ⟨q, hq, rfl⟩
    exact seedScore_pos _
  · rcases List.mem_filterMap.mp hp with ⟨c, hc, hcp⟩
    split at hcp
    · simp at hcp
    · rename_i hne
      simp only [Option.some_inj] at hcp
      subst hcp
      omega

theorem dictLookup_mem {d : List (List Char × ℕ)} {k : List Char} {n : ℕ}
    (h : dictLookup d k = some n) : ∃ p ∈ d, p.2 = n := by
  rw [dictLookup] at h
  rcases Option.map_eq_some'.mp h with ⟨p, hp, rfl⟩
  exact ⟨p, List.mem_of_find?_eq_some hp, rfl⟩

theorem scoreGetQ_pos {d : List (List Char × ℕ)} (hd : ∀ p ∈ d, 1 ≤ p.2)
    (l : List Char) : 0 < scoreGetQ d l := by
  rw [scoreGetQ]
  rcases h : dictLookup d l with _ | n
  · norm_num
  · rcases dictLookup_mem h with ⟨p, hp, rfl⟩
    have := hd p hp
    positivity

theorem headI_map_rat {f : List Char → ℚ} {l : List (List Char)} (h : l ≠ []) :
    (l.map f).headI = f l.headI := by
  cases l with
  | nil => exact absurd rfl h
  | cons a as => simp [List.headI]

theorem classify_labels_perm (rand : ℕ → ℚ) (text : List Char) :
    (classify_text rand text categories).labels.Perm categories :=
  sortDesc_perm _ _

theorem classify_labels_ne_nil (rand : ℕ → ℚ) (text : List Char) :
    (classify_text rand text categories).labels ≠ [] := by
  intro h
  have := (classify_labels_perm rand text).length_eq
  rw [h] at this
  simp [categories] at this

theorem classify_label_mem (rand : ℕ → ℚ) (text : List Char) :
    (classify_text rand text categories).labels.headI ∈ categories :=
  (classify_labels_perm rand text).mem_iff.mp
    (headI_mem_self (classify_labels_ne_nil rand text))

theorem classify_score_bounds (rand : ℕ → ℚ) (text : List Char) :
    0 ≤ (classify_text rand text categories).scores.headI ∧
      (classify_text rand text categories).scores.headI ≤ 1 := by
  have hne := classify_labels_ne_nil rand text
  set d := scoresDict categories rand (lowerStr text) with hd
  have hdpos : ∀ p ∈ d, 1 ≤ p.2 := scoresDict_pos categories rand (lowerStr text)
  set ord := (classify_text rand text categories).labels with hord
  have hsc : (classify_text rand text categories).scores =
      ord.map (fun l => scoreGetQ d l / (ord.map (fun l => scoreGetQ d l)).sum) := rfl
  set total := (ord.map (fun l => scoreGetQ d l)).sum with htot
  have hhead : (classify_text rand text categories).scores.headI =
      scoreGetQ d ord.headI / total := by
    rw [hsc]
    exact headI_map_rat hne
  have hvpos : 0 < scoreGetQ d ord.headI := scoreGetQ_pos hdpos _
  have hmem : scoreGetQ d ord.headI ∈ ord.map (fun l => scoreGetQ d l) :=
    List.mem_map_of_mem _ (headI_mem_self hne)
  have hnn : ∀ x ∈ ord.map (fun l => scoreGetQ d l), 0 ≤ x := by
    intro x hx
    rcases List.mem_map.mp hx with ⟨l, hl, rfl⟩
    exact le_of_lt (scoreGetQ_pos hdpos l)
  have hle : scoreGetQ d ord.headI ≤ total := List.single_le_sum hnn _ hmem
  have htotpos : 0 < total := lt_of_lt_of_le hvpos hle
  rw [hhead]
  constructor
  · positivity
  · rw [div_le_one htotpos]
    exact hle

theorem classify_scores_length (rand : ℕ → ℚ) (text : List Char) :
    (classify_text rand text categories).scores.length =
      (classify_text rand text categories).labels.length := by
  simp [classify_text]

theorem classify_scores_ne_nil (rand : ℕ → ℚ) (text : List Char) :
    (classify_text rand text categories).scores ≠ [] := by
  intro hc
  have h := classify_scores_length rand text
  rw [hc] at h
  exact classify_labels_ne_nil rand text (List.length_eq_zero.mp h.symm)

/-- Claim C3: for every input text (and language tag), and for every
classifier call that either fails (modelling the exception fallback) or
returns the mock classification, classify_intent produces a label among
the four fixed categories and a score in the interval [0,1]. -/
theorem claim_C3 (cls : ClassifierCall) (rand : ℕ → ℚ) (text language : List Char)
    (hcls : ∀ s, cls s = none ∨ cls s = some (classify_text rand s categories)) :
    (classify_intent_full cls text language).label ∈ categories ∧
      0 ≤ (classify_intent_full cls text language).score ∧
      (classify_intent_full cls text language).score ≤ 1 := by
  rcases hcls (text.take 1000) with h | h
  · refine ⟨?_, ?_, ?_⟩ <;> simp [classify_intent_full, h] <;> norm_num [categories]
  · have hne := classify_labels_ne_nil rand (text.take 1000)
    have hsne := classify_scores_ne_nil rand (text.take 1000)
    have hl : (classify_intent_full cls text language).label =
        (classify_text rand (text.take 1000) categories).labels.headI := by
      simp [classify_intent_full, h, hne]
    have hs : (classify_intent_full cls text language).score =
        (classify_text rand (text.take 1000) categories).scores.headI := by
      simp [classify_intent_full, h, hsne]
    rw [hl, hs]
    exact ⟨classify_label_mem rand _, (classify_score_bounds rand _).1,
      (classify_score_bounds rand _).2⟩

/-- Witness for claim C3 at a concrete classifier, random stream and
text. -/
theorem claim_C3_witness :
    (classify_intent_full (fun s => some (classify_text (fun _ => (1 : ℚ) / 2) s categories))
        (str "please provide the documents.") (str "English")).label ∈ categories ∧
      0 ≤ (classify_intent_full (fun s => some (classify_text (fun _ => (1 : ℚ) / 2) s categories))
        (str "please provide the documents.") (str "English")).score ∧
      (classify_intent_full (fun s => some (classify_text (fun _ => (1 : ℚ) / 2) s categories))
        (str "please provide the documents.") (str "English")).score ≤ 1 :=
  claim_C3 _ (fun _ => (1 : ℚ) / 2) (str "please provide the documents.") (str "English")
    (fun s => Or.inr rfl)

theorem scoresDict_of_allZero (labels : List (List Char)) (rand : ℕ → ℚ)
    (tl : List Char) (h : ∀ cat ∈ categories, kwCount tl cat = 0) :
    scoresDict labels rand tl =
      (withIdx 0 labels).map (fun p => (p.2, seedScore (rand p.1))) := by
  simp only [scoresDict]
  rw [if_pos]
  rw [List.isEmpty_iff, List.filterMap_eq_nil_iff]
  intro c hc
  simp [h c hc]

/-- Claim C4: when no keyword of any of the four categories occurs in the
lower-cased classification sample (the first 1000 characters), every
category is assigned an integer fallback score between 1 and 10
inclusive. -/
theorem claim_C4 (rand : ℕ → ℚ) (text : List Char)
    (hz : ∀ cat ∈ categories, ∀ k ∈ keyword_categories cat,
      hasSeg k (lowerStr (text.take 1000)) = false)
    (hr : ∀ i, 0 ≤ rand i ∧ rand i < 1) :
    ∀ cat ∈ categories, ∃ n,
      dictLookup (scoresDict categories rand (lowerStr (text.take 1000))) cat = some n ∧
        1 ≤ n ∧ n ≤ 10 := by
  have hcount : ∀ cat ∈ categories, kwCount (lowerStr (text.take 1000)) cat = 0 := by
    intro cat hcat
    rw [kwCount, List.countP_eq_zero]
    intro k hk
    simp [hz cat hcat k hk]
  rw [scoresDict_of_allZero categories rand _ hcount]
  intro cat hcat
  fin_cases hcat
  · exact ⟨seedScore (rand 0), by simp [dictLookup, withIdx, categories],
      seedScore_pos _, seedScore_le _ (hr 0).1 (hr 0).2⟩
  · refine ⟨seedScore (rand 1), ?_, seedScore_pos _, seedScore_le _ (hr 1).1 (hr 1).2⟩
    simp only [dictLookup, withIdx, categories, List.find?]
    rw [show decide (str "Complaint" = str "Request") = false from by decide]
    rfl
  · refine ⟨seedScore (rand 2), ?_, seedScore_pos _, seedScore_le _ (hr 2).1 (hr 2).2⟩
    simp only [dictLookup, withIdx, categories, List.find?]
    rw [show decide (str "Complaint" = str "Update/Notification") = false from by decide,
      show decide (str "Request" = str "Update/Notification") = false from by decide]
    rfl
  · refine ⟨seedScore (rand 3), ?_, seedScore_pos _, seedScore_le _ (hr 3).1 (hr 3).2⟩
    simp only [dictLookup, withIdx, categories, List.find?]
    rw [show decide (str "Complaint" = str "Appreciation") = false from by decide,
      show decide (str "Request" = str "Appreciation") = false from by decide,
      show decide (str "Update/Notification" = str "Appreciation") = false from by decide]
    rfl

/-- Witness for claim C4 at a concrete keyword-free text and random
stream. -/
theorem claim_C4_witness :
    ∃ n, dictLookup (scoresDict categories (fun _ => (1 : ℚ) / 2)
        (lowerStr ((str "zzz").take 1000))) (str "Request") = some n ∧
      1 ≤ n ∧ n ≤ 10 :=
  claim_C4 (fun _ => (1 : ℚ) / 2) (str "zzz") (by decide)
    (fun i => ⟨by norm_num, by norm_num⟩) (str "Request") (by decide)

/-- Claim C6: the classifier ranks the four categories so that the list
is a permutation of the fixed categories, sorted in descending order of
dictionary score with ties resolved by the fixed declaration order, and
classify_intent returns the top-ranked category as its label. -/
theorem claim_C6 (rand : ℕ → ℚ) (text language : List Char) :
    (classify_text rand (text.take 1000) categories).labels.Perm categories ∧
      (classify_text rand (text.take 1000) categories).labels.Pairwise
        (rankRel (fun l => scoreGet0
          (scoresDict categories rand (lowerStr (text.take 1000))) l)) ∧
      (classify_intent_full (mockClassifier language rand) text language).label =
        (classify_text rand (text.take 1000) categories).labels.headI := by
  refine ⟨classify_labels_perm rand _, ?_, ?_⟩
  · have hp : categories.Pairwise (fun a b => declIdx a < declIdx b) := by decide
    exact pairwise_sortDesc hp
  · have hne := classify_labels_ne_nil rand (text.take 1000)
    simp [classify_intent_full, mockClassifier, hne]

/-! ### Explanation lemmas -/

theorem foldr_append_split (xs ys : List (List Char)) :
    (xs ++ ys).foldr (· ++ ·) [] = xs.foldr (· ++ ·) [] ++ ys.foldr (· ++ ·) [] := by
  induction xs with
  | nil => simp
  | cons a as ih => simp [ih]

theorem mem_foldr_append {c : Char} :
    ∀ {l : List (List Char)}, c ∈ l.foldr (· ++ ·) [] ↔ ∃ part ∈ l, c ∈ part := by
  intro l
  induction l with
  | nil => simp
  | cons a as ih => simp [List.mem_append, ih]

theorem digitChar_ne_K (n : ℕ) : digitCharM n ≠ 'K' := by
  rw [digitCharM]
  split_ifs <;> decide

theorem kNotMem_digitsAux :
    ∀ (fuel n : ℕ) (acc : List Char), 'K' ∉ acc → 'K' ∉ digitsAux fuel n acc := by
  intro fuel
  induction fuel with
  | zero => intro n acc h; simpa [digitsAux] using h
  | succ f ih =>
    intro n acc h
    cases n with
    | zero => simpa [digitsAux] using h
    | succ m =>
      rw [digitsAux]
      refine ih _ _ ?_
      intro hc
      rcases List.mem_cons.mp hc with hc | hc
      · exact digitChar_ne_K _ hc.symm
      · exact h hc

theorem kNotMem_natToChars (n : ℕ) : 'K' ∉ natToChars n := by
  rw [natToChars]
  split
  · intro h
    rcases List.mem_singleton.mp h with h
    exact digitChar_ne_K 0 h.symm
  · exact kNotMem_digitsAux _ _ _ (by simp)

theorem kNotMem_formatScore2 (q : ℚ) : 'K' ∉ formatScore2 q := by
  rw [formatScore2]
  intro h
  rcases List.mem_append.mp h with h | h
  · rcases List.mem_append.mp h with h | h
    · exact kNotMem_natToChars _ h
    · simp [str] at h
  · rcases List.mem_cons.mp h with h | h
    · exact digitChar_ne_K _ h.symm
    · rcases List.mem_singleton.mp h with h
      exact digitChar_ne_K _ h.symm

theorem kNotMem_explanationMain (intent : List Char) :
    'K' ∉ explanationMain intent := by
  rw [explanationMain]
  split_ifs <;> decide

theorem kNotMem_explanationDetails (intent : List Char) :
    ∀ d ∈ explanationDetails intent, 'K' ∉ d := by
  rw [explanationDetails]
  split_ifs <;> decide

theorem kNotMem_confidencePhrase (lvl : List Char) :
    'K' ∉ confidencePhrase lvl := by
  rw [confidencePhrase]
  split_ifs <;> decide

theorem kNotMem_confidenceExplanation (lvl : List Char) :
    'K' ∉ confidenceExplanation lvl := by
  rw [confidenceExplanation]
  split_ifs <;> decide

theorem kNotMem_explanationText {intent : List Char} {score : ℚ} {text : List Char}
    (h : foundKeywords intent text = []) :
    'K' ∉ explanationText intent score text := by
  rw [explanationText]
  intro hc
  rcases mem_foldr_append.mp hc with ⟨part, hpart, hcp⟩
  rw [explanationParts] at hpart
  simp only [h, List.isEmpty_nil, if_true, List.append_nil] at hpart
  rcases List.mem_append.mp hpart with hp | hp
  · rcases List.mem_append.mp hp with hp | hp
    · rcases List.mem_cons.mp hp with hp | hp
      · subst hp
        rcases List.mem_append.mp hcp with h2 | h2
        · rcases List.mem_append.mp h2 with h3 | h3
          · rcases List.mem_append.mp h3 with h4 | h4
            · rcases List.mem_append.mp h4 with h5 | h5
              · rcases List.mem_append.mp h5 with h6 | h6
                · exact kNotMem_explanationMain intent h6
                · exact absurd h6 (by decide)
              · exact kNotMem_confidencePhrase _ h5
            · exact absurd h4 (by decide)
          · exact kNotMem_formatScore2 _ h3
        · exact absurd h2 (by decide)
      · rcases List.mem_singleton.mp hp with rfl
        exact absurd hcp (by decide)
    · rcases List.mem_map.mp hp with ⟨d, hd, rfl⟩
      rcases List.mem_append.mp hcp with h2 | h2
      · exact absurd h2 (by decide)
      · exact kNotMem_explanationDetails intent d hd h2
  · rcases List.mem_singleton.mp hp with rfl
    rcases List.mem_append.mp hcp with h2 | h2
    · exact absurd h2 (by decide)
    · exact kNotMem_confidenceExplanation _ h2

theorem explanation_kwline (intent : List Char) (score : ℚ) (text : List Char) :
    (foundKeywords intent text ≠ [] →
      ∃ A B, explanationText intent score text =
        A ++ keywordLine (foundKeywords intent text) ++ B) ∧
    (foundKeywords intent text = [] →
      ¬ SegOf (str "Keywords detected:") (explanationText intent score text)) := by
  constructor
  · intro h
    rw [explanationText, explanationParts]
    have hne : (foundKeywords intent text).isEmpty = false :=
      List.isEmpty_eq_false.mpr h
    rw [hne]
    simp only [Bool.false_eq_true, if_false]
    set front := ([explanationMain intent ++ str " The document has been classified " ++
        confidencePhrase (confidenceLevel score) ++ str " (" ++ formatScore2 score ++ str ")." ,
      str "\nDetailed analysis:"] ++
      (explanationDetails intent).map (fun d => str "\n• " ++ d)) with hfront
    set back := [str "\n" ++ confidenceExplanation (confidenceLevel score)] with hback
    refine ⟨front.foldr (· ++ ·) [], back.foldr (· ++ ·) [], ?_⟩
    rw [List.append_assoc, foldr_append_split, foldr_append_split]
    simp [List.append_assoc]
  · intro h hseg
    have hK : 'K' ∈ str "Keywords detected:" := by decide
    exact kNotMem_explanationText h (mem_of_segOf hseg hK)

/-- Claim C9: when some keyword of the classified label occurs in the
lower-cased first 2000 characters of the full text, the explanation is
the surrounding text with an embedded "Keywords detected:" line listing
the matched terms (at most 5, in the fixed table order); when none
occurs, the explanation contains no such line. -/
theorem claim_C9 (cls : ClassifierCall) (text language : List Char) :
    (foundKeywords (classify_intent_full cls text language).label text ≠ [] →
      ∃ A B, (classify_intent_full cls text language).explanation =
        A ++ keywordLine
          (foundKeywords (classify_intent_full cls text language).label text) ++ B ∧
        keywordLine (foundKeywords (classify_intent_full cls text language).label text) =
          str "\nKeywords detected: " ++ joinSep (str ", ")
            ((foundKeywords (classify_intent_full cls text language).label text).take 5) ∧
        foundKeywords (classify_intent_full cls text language).label text =
          (intent_keywords (classify_intent_full cls text language).label).filter
            (fun w => hasSeg w (lowerStr (text.take 2000)))) ∧
    (foundKeywords (classify_intent_full cls text language).label text = [] →
      ¬ SegOf (str "Keywords detected:")
        (classify_intent_full cls text language).explanation) := by
  have h := explanation_kwline (classify_intent_full cls text language).label
    (classify_intent_full cls text language).score text
  constructor
  · intro hne
    rcases h.1 hne with ⟨A, B, hAB⟩
    exact ⟨A, B, hAB, rfl, rfl⟩
  · exact h.2

/-- Witness for claim C9 at a concrete text whose classified label has
matched keywords. -/
theorem claim_C9_witness :
    ∃ A B, (classify_intent_full (mockClassifier (str "English") (fun _ => 0))
        (str "please provide the documents.") (str "English")).explanation =
      A ++ keywordLine
        (foundKeywords (classify_intent_full (mockClassifier (str "English") (fun _ => 0))
          (str "please provide the documents.") (str "English")).label
          (str "please provide the documents.")) ++ B ∧
      keywordLine (foundKeywords
          (classify_intent_full (mockClassifier (str "English") (fun _ => 0))
            (str "please provide the documents.") (str "English")).label
          (str "please provide the documents.")) =
        str "\nKeywords detected: " ++ joinSep (str ", ")
          ((foundKeywords (classify_intent_full (mockClassifier (str "English") (fun _ => 0))
            (str "please provide the documents.") (str "English")).label
            (str "please provide the documents.")).take 5) ∧
      foundKeywords (classify_intent_full (mockClassifier (str "English") (fun _ => 0))
          (str "please provide the documents.") (str "English")).label
          (str "please provide the documents.") =
        (intent_keywords (classify_intent_full (mockClassifier (str "English") (fun _ => 0))
          (str "please provide the documents.") (str "English")).label).filter
          (fun w => hasSeg w (lowerStr ((str "please provide the documents.").take 2000))) :=
  (claim_C9 (mockClassifier (str "English") (fun _ => 0))
    (str "please provide the documents.") (str "English")).1 (by decide)

/-- Claim C7: get_summary is total over every summarizer oracle (it is a
Lean function of the oracle and the text), and each failure is replaced
locally by the specified extractive fallback: a failing single-pass call
on a text of at most 1000 characters yields the first three sentences
joined by single spaces plus ellipsis, and a failing paragraph-level
call contributes that paragraph's first 100 characters plus ellipsis. -/
theorem claim_C7 (summarizer : SummOracle) (text language : List Char) :
    (text.length ≤ 1000 →
      summarizer text (summaryMaxLength text) (summaryMinLength text) = SummRes.failure →
      get_summary summarizer text language =
        joinSep (str " ") ((splitSentences text).take 3) ++ ell) ∧
    (∀ para ∈ splitParas text, 200 < (strip para).length →
      summarizer para (summaryMaxLength text / 2) (summaryMinLength text / 2) =
        SummRes.failure →
      (para.take 100 ++ ell) ∈ summariesOf summarizer text) := by
  constructor
  · intro hlen hfail
    simp only [get_summary]
    rw [if_neg (by omega : ¬ 1000 < text.length), hfail]
  · intro para hpara hlen hfail
    rw [summariesOf]
    refine List.mem_filterMap.mpr ⟨para, hpara, ?_⟩
    rw [if_pos hlen, hfail]

/-- Witness for claim C7: a failing oracle on a short text produces the
three-sentence extractive fallback. -/
theorem claim_C7_witness :
    get_summary (fun _ _ _ => SummRes.failure)
        (str "Alpha one. Beta two. Gamma three. Delta four.") (str "English") =
      joinSep (str " ")
        ((splitSentences (str "Alpha one. Beta two. Gamma three. Delta four.")).take 3) ++
        ell :=
  (claim_C7 (fun _ _ _ => SummRes.failure)
    (str "Alpha one. Beta two. Gamma three. Delta four.") (str "English")).1
    (by decide) rfl

/-- Claim C8: for a document over 1000 characters for which exactly one
paragraph summary is produced, get_summary returns that summary
unchanged, with no combination or re-summarization step. -/
theorem claim_C8 (summarizer : SummOracle) (text language s : List Char)
    (h1 : 1000 < text.length) (h2 : summariesOf summarizer text = [s]) :
    get_summary summarizer text language = s := by
  simp only [get_summary]
  rw [if_pos h1, h2]
  simp

/-- Claim C10: the three entry points are language-independent: for any
two language tags, summarization, bullet extraction and intent
classification produce identical outputs on the same text (the language
tag only selects the entity-annotation tables elsewhere in the
source). -/
theorem claim_C10 (l1 l2 text : List Char) (rand : ℕ → ℚ) :
    get_summary_entry l1 text = get_summary_entry l2 text ∧
      extract_bullet_points text l1 = extract_bullet_points text l2 ∧
      classify_intent_entry l1 rand text = classify_intent_entry l2 rand text :=
  ⟨rfl, rfl, rfl⟩

set_option maxRecDepth 100000 in
/-- Witness for claim C8: a 1001-character single-paragraph document with
a failing oracle produces exactly one paragraph summary, which is
returned unchanged. -/
theorem claim_C8_witness :
    get_summary (fun _ _ _ => SummRes.failure) (List.replicate 1001 'a') (str "English") =
      List.replicate 100 'a' ++ ell :=
  claim_C8 (fun _ _ _ => SummRes.failure) (List.replicate 1001 'a') (str "English")
    (List.replicate 100 'a' ++ ell) (by decide) (by decide)

/-- Witness for claim C1 at a concrete document. -/
theorem claim_C1_witness :
    (extract_bullet_points (str "The plan is important. It works well.")
        (str "English")).length ≤ 20 ∧
      ∃ tag raw, tag ∈ tagStrings ∧
        str "Key Point: The plan is important." = tag ++ raw ∧
        SegOf raw (str "The plan is important. It works well.") :=
  ⟨(claim_C1 (str "The plan is important. It works well.") (str "English")).1,
    (claim_C1 (str "The plan is important. It works well.") (str "English")).2
      (str "Key Point: The plan is important.") (by decide)⟩
